import Mathlib

/-!
Verification of `landice/mesh_tools_li/interpolate_to_mpasli_grid.py`.

The script interpolates fields from a CISM or MPAS source file onto an MPAS-LI
mesh using one of four horizontal strategies (bilinear, barycentric with
nearest-neighbor fallback, whole-field nearest neighbor, ESMF sparse weights),
followed by an optional vertical re-layering.  The definitions below are a
shallow embedding of the relevant routines over exact rationals; arrays become
lists or index functions, numpy/scipy library calls are modelled from their
documented behavior at the call sites noted in each doc comment.
-/

namespace InterpMpasli

/- ------------------------------------------------------------------ -/
/- Barycentric (Delaunay) weight computation: delaunay_interp_weights -/
/- ------------------------------------------------------------------ -/

/-- Determinant of the matrix whose columns are `v0 - v2` and `v1 - v2`.
`scipy.spatial.Delaunay` stores, for each simplex, the inverse of this matrix
together with the last vertex `v2` (the `tri.transform` array read at line 140
of `interpolate_to_mpasli_grid.py`). -/
def detT (v0 v1 v2 : ℚ × ℚ) : ℚ :=
  (v0.1 - v2.1) * (v1.2 - v2.2) - (v1.1 - v2.1) * (v0.2 - v2.2)

/-- Weight triple computed by `delaunay_interp_weights` (lines 140-145) for one
destination point `p` whose located simplex has vertices `v0, v1, v2`:
`bary = T (p - r)` where `T` is the inverse of the matrix `[v0 - v2, v1 - v2]`
(written out through the adjugate over `detT`) and `r = v2`, and the third
weight is `1 -` the sum of the first two, mirroring
`wts = np.hstack((bary, 1 - bary.sum(axis=1, keepdims=True)))`. -/
def delaunay_interp_weights_point (v0 v1 v2 p : ℚ × ℚ) : ℚ × ℚ × ℚ :=
  (((v1.2 - v2.2) * (p.1 - v2.1) - (v1.1 - v2.1) * (p.2 - v2.2)) / detT v0 v1 v2,
   ((v0.1 - v2.1) * (p.2 - v2.2) - (v0.2 - v2.2) * (p.1 - v2.1)) / detT v0 v1 v2,
   1 - (((v1.2 - v2.2) * (p.1 - v2.1) - (v1.1 - v2.1) * (p.2 - v2.2)) / detT v0 v1 v2
        + ((v0.1 - v2.1) * (p.2 - v2.2) - (v0.2 - v2.2) * (p.1 - v2.1)) / detT v0 v1 v2))

/-- Dot product of a weight triple with the three source values gathered at the
stored vertex indices: one entry of `outfield = np.einsum(...)` (line 192). -/
def baryValue (w : ℚ × ℚ × ℚ) (f0 f1 f2 : ℚ) : ℚ :=
  w.1 * f0 + w.2.1 * f1 + w.2.2 * f2

/- ------------------------------------------------------------------ -/
/- delaunay_interpolate with the nearest-neighbor override             -/
/- ------------------------------------------------------------------ -/

/-- Squared Euclidean distance in the plane. -/
def sqDist (p q : ℚ × ℚ) : ℚ := (p.1 - q.1) ^ 2 + (p.2 - q.2) ^ 2

/-- Index of a source point at minimal distance from the query point `q`:
models the `k = 1` query on the `scipy.spatial.cKDTree` built over the source
coordinates at line 158 and queried at line 202
(`dist, idx = tree.query(outsideCoord, k=1)`). -/
def kdTreeQuery (xy : List (ℚ × ℚ)) (q : ℚ × ℚ) : ℕ :=
  (List.range xy.length).foldl
    (fun best j =>
      if sqDist (xy.getD j (0, 0)) q < sqDist (xy.getD best (0, 0)) q then j else best) 0

/-- Barycentric value of one destination point `n`: the einsum of line 192,
with `vtx n` the three stored vertex indices into the flattened source field
and `wts n` the stored barycentric weights. -/
def delaunay_einsum (values : ℕ → ℚ) (vtx : ℕ → ℕ × ℕ × ℕ) (wts : ℕ → ℚ × ℚ × ℚ)
    (n : ℕ) : ℚ :=
  values (vtx n).1 * (wts n).1 + values (vtx n).2.1 * (wts n).2.1 +
    values (vtx n).2.2 * (wts n).2.2

/-- `delaunay_interpolate` (lines 176-205): the barycentric value is computed
for every destination point, then for every index in `outsideInd` the value is
overwritten with the flattened source value at the nearest source point
returned by the KD-tree (lines 200-203; the guard `if len(outsideInd) > 0`
only skips the overwrite when there is no such index). `values` is the
flattened source field, `xy` the source coordinates the tree was built over,
`mpasXY` the destination coordinates. -/
def delaunay_interpolate (values : ℕ → ℚ) (vtx : ℕ → ℕ × ℕ × ℕ) (wts : ℕ → ℚ × ℚ × ℚ)
    (outsideInd : List ℕ) (xy : List (ℚ × ℚ)) (mpasXY : ℕ → ℚ × ℚ) (n : ℕ) : ℚ :=
  if n ∈ outsideInd then values (kdTreeQuery xy (mpasXY n))
  else delaunay_einsum values vtx wts n

/- ------------------------------------------------------------------ -/
/- Helper lemmas                                                       -/
/- ------------------------------------------------------------------ -/

lemma foldl_argmin_le (f : ℕ → ℚ) :
    ∀ n j : ℕ, j < n →
      f ((List.range n).foldl (fun best i => if f i < f best then i else best) 0) ≤ f j := by
  intro n
  induction n with
  | zero => intro j hj; exact absurd hj (Nat.not_lt_zero j)
  | succ m ih =>
    intro j hj
    rw [List.range_succ, List.foldl_append, List.foldl_cons, List.foldl_nil]
    by_cases h : f m < f ((List.range m).foldl (fun best i => if f i < f best then i else best) 0)
    · rw [if_pos h]
      rcases Nat.lt_succ_iff_lt_or_eq.mp hj with h2 | h2
      · exact le_trans (le_of_lt h) (ih j h2)
      · subst h2; exact le_refl _
    · rw [if_neg h]
      rcases Nat.lt_succ_iff_lt_or_eq.mp hj with h2 | h2
      · exact ih j h2
      · subst h2; exact le_of_not_lt h

/- ------------------------------------------------------------------ -/
/- Theorems for C1 and C2                                              -/
/- ------------------------------------------------------------------ -/

/-- C1: for a destination point lying in a nondegenerate triangle of the
triangulation (as every point strictly inside the convex hull does), the
weights computed by `delaunay_interp_weights` are non-negative, sum to 1 (the
third being 1 minus the sum of the first two), and the interpolated value lies
between the minimum and the maximum of the three source vertex values. -/
theorem c1_barycentric_convex_combination
    (v0 v1 v2 p : ℚ × ℚ) (f0 f1 f2 a0 a1 a2 : ℚ)
    (hdet : detT v0 v1 v2 ≠ 0)
    (ha0 : 0 ≤ a0) (ha1 : 0 ≤ a1) (ha2 : 0 ≤ a2)
    (hsum : a0 + a1 + a2 = 1)
    (hpx : p.1 = a0 * v0.1 + a1 * v1.1 + a2 * v2.1)
    (hpy : p.2 = a0 * v0.2 + a1 * v1.2 + a2 * v2.2) :
    0 ≤ (delaunay_interp_weights_point v0 v1 v2 p).1 ∧
    0 ≤ (delaunay_interp_weights_point v0 v1 v2 p).2.1 ∧
    0 ≤ (delaunay_interp_weights_point v0 v1 v2 p).2.2 ∧
    (delaunay_interp_weights_point v0 v1 v2 p).1 +
      (delaunay_interp_weights_point v0 v1 v2 p).2.1 +
      (delaunay_interp_weights_point v0 v1 v2 p).2.2 = 1 ∧
    min f0 (min f1 f2) ≤ baryValue (delaunay_interp_weights_point v0 v1 v2 p) f0 f1 f2 ∧
    baryValue (delaunay_interp_weights_point v0 v1 v2 p) f0 f1 f2 ≤ max f0 (max f1 f2) := by
  obtain ⟨x0, y0⟩ := v0
  obtain ⟨x1, y1⟩ := v1
  obtain ⟨x2, y2⟩ := v2
  obtain ⟨px, py⟩ := p
  simp only [delaunay_interp_weights_point, detT, baryValue] at *
  have hb0 : ((y1 - y2) * (px - x2) - (x1 - x2) * (py - y2)) /
      ((x0 - x2) * (y1 - y2) - (x1 - x2) * (y0 - y2)) = a0 := by
    rw [div_eq_iff hdet]
    subst hpx
    subst hpy
    linear_combination ((y1 - y2) * x2 - (x1 - x2) * y2) * hsum
  have hb1 : ((x0 - x2) * (py - y2) - (y0 - y2) * (px - x2)) /
      ((x0 - x2) * (y1 - y2) - (x1 - x2) * (y0 - y2)) = a1 := by
    rw [div_eq_iff hdet]
    subst hpx
    subst hpy
    linear_combination ((x0 - x2) * y2 - (y0 - y2) * x2) * hsum
  rw [hb0, hb1]
  have ha2eq : 1 - (a0 + a1) = a2 := by linarith
  rw [ha2eq]
  refine ⟨ha0, ha1, ha2, by linarith, ?_, ?_⟩
  · have h0 : min f0 (min f1 f2) ≤ f0 := min_le_left _ _
    have h1 : min f0 (min f1 f2) ≤ f1 := le_trans (min_le_right _ _) (min_le_left _ _)
    have h2 : min f0 (min f1 f2) ≤ f2 := le_trans (min_le_right _ _) (min_le_right _ _)
    have hm : a0 * min f0 (min f1 f2) + a1 * min f0 (min f1 f2) +
        a2 * min f0 (min f1 f2) = min f0 (min f1 f2) := by
      linear_combination min f0 (min f1 f2) * hsum
    linarith [mul_le_mul_of_nonneg_left h0 ha0, mul_le_mul_of_nonneg_left h1 ha1,
      mul_le_mul_of_nonneg_left h2 ha2]
  · have h0 : f0 ≤ max f0 (max f1 f2) := le_max_left _ _
    have h1 : f1 ≤ max f0 (max f1 f2) := le_trans (le_max_left _ _) (le_max_right _ _)
    have h2 : f2 ≤ max f0 (max f1 f2) := le_trans (le_max_right _ _) (le_max_right _ _)
    have hm : a0 * max f0 (max f1 f2) + a1 * max f0 (max f1 f2) +
        a2 * max f0 (max f1 f2) = max f0 (max f1 f2) := by
      linear_combination max f0 (max f1 f2) * hsum
    linarith [mul_le_mul_of_nonneg_left h0 ha0, mul_le_mul_of_nonneg_left h1 ha1,
      mul_le_mul_of_nonneg_left h2 ha2]

/-- Witness for C1: the spec scenario triangle (0,0), (2,0), (0,2) with values
1, 3, 5 and the interior point (1/2, 1/2) = 1/2·(0,0) + 1/4·(2,0) + 1/4·(0,2). -/
theorem c1_barycentric_convex_combination_witness :
    detT ((0:ℚ), (0:ℚ)) (2, 0) (0, 2) ≠ 0 ∧
    (0:ℚ) ≤ 1/2 ∧ (0:ℚ) ≤ 1/4 ∧ (0:ℚ) ≤ 1/4 ∧
    (1/2 : ℚ) + 1/4 + 1/4 = 1 ∧
    (((1:ℚ)/2, (1:ℚ)/2) : ℚ × ℚ).1 = 1/2 * 0 + 1/4 * 2 + 1/4 * 0 ∧
    (((1:ℚ)/2, (1:ℚ)/2) : ℚ × ℚ).2 = 1/2 * 0 + 1/4 * 0 + 1/4 * 2 ∧
    (0 ≤ (delaunay_interp_weights_point ((0:ℚ), (0:ℚ)) (2, 0) (0, 2) (1/2, 1/2)).1 ∧
     0 ≤ (delaunay_interp_weights_point ((0:ℚ), (0:ℚ)) (2, 0) (0, 2) (1/2, 1/2)).2.1 ∧
     0 ≤ (delaunay_interp_weights_point ((0:ℚ), (0:ℚ)) (2, 0) (0, 2) (1/2, 1/2)).2.2 ∧
     (delaunay_interp_weights_point ((0:ℚ), (0:ℚ)) (2, 0) (0, 2) (1/2, 1/2)).1 +
       (delaunay_interp_weights_point ((0:ℚ), (0:ℚ)) (2, 0) (0, 2) (1/2, 1/2)).2.1 +
       (delaunay_interp_weights_point ((0:ℚ), (0:ℚ)) (2, 0) (0, 2) (1/2, 1/2)).2.2 = 1 ∧
     min 1 (min 3 5) ≤ baryValue (delaunay_interp_weights_point ((0:ℚ), (0:ℚ)) (2, 0) (0, 2) (1/2, 1/2)) 1 3 5 ∧
     baryValue (delaunay_interp_weights_point ((0:ℚ), (0:ℚ)) (2, 0) (0, 2) (1/2, 1/2)) 1 3 5 ≤ max 1 (max 3 5)) :=
  ⟨by norm_num [detT], by norm_num, by norm_num, by norm_num, by norm_num,
   by norm_num, by norm_num,
   c1_barycentric_convex_combination ((0:ℚ), (0:ℚ)) (2, 0) (0, 2) (1/2, 1/2) 1 3 5
     (1/2) (1/4) (1/4) (by norm_num [detT]) (by norm_num) (by norm_num) (by norm_num)
     (by norm_num) (by norm_num) (by norm_num)⟩

/-- C2: for every destination point index in `outsideInd` (the points outside
the convex hull), the barycentric strategy's output equals the source value at
an index that is a nearest source point to the destination coordinates: the
nearest-neighbor override of lines 200-203 always applies. -/
theorem c2_outside_hull_nearest_value
    (values : ℕ → ℚ) (vtx : ℕ → ℕ × ℕ × ℕ) (wts : ℕ → ℚ × ℚ × ℚ)
    (outsideInd : List ℕ) (xy : List (ℚ × ℚ)) (mpasXY : ℕ → ℚ × ℚ) (n : ℕ)
    (hn : n ∈ outsideInd) :
    delaunay_interpolate values vtx wts outsideInd xy mpasXY n
        = values (kdTreeQuery xy (mpasXY n)) ∧
    ∀ j < xy.length,
      sqDist (xy.getD (kdTreeQuery xy (mpasXY n)) (0, 0)) (mpasXY n)
        ≤ sqDist (xy.getD j (0, 0)) (mpasXY n) := by
  constructor
  · simp [delaunay_interpolate, hn]
  · intro j hj
    simp only [kdTreeQuery]
    exact foldl_argmin_le (fun i => sqDist (xy.getD i (0, 0)) (mpasXY n)) xy.length j hj

/-- Witness for C2: three source points, destination point 7 flagged as
outside at coordinates (10, 0); its nearest source point is index 1. -/
theorem c2_outside_hull_nearest_value_witness :
    (7 ∈ [7]) ∧
    (delaunay_interpolate (fun i => ([1, 3, 5] : List ℚ).getD i 0)
        (fun _ => (0, 1, 2)) (fun _ => (1, 0, 0)) [7]
        [((0:ℚ), (0:ℚ)), (2, 0), (0, 2)] (fun _ => ((10:ℚ), (0:ℚ))) 7
        = (fun i => ([1, 3, 5] : List ℚ).getD i 0)
            (kdTreeQuery [((0:ℚ), (0:ℚ)), (2, 0), (0, 2)] ((10:ℚ), (0:ℚ))) ∧
     ∀ j < ([((0:ℚ), (0:ℚ)), (2, 0), (0, 2)] : List (ℚ × ℚ)).length,
       sqDist (([((0:ℚ), (0:ℚ)), (2, 0), (0, 2)] : List (ℚ × ℚ)).getD
           (kdTreeQuery [((0:ℚ), (0:ℚ)), (2, 0), (0, 2)] ((10:ℚ), (0:ℚ))) (0, 0)) ((10:ℚ), (0:ℚ))
         ≤ sqDist (([((0:ℚ), (0:ℚ)), (2, 0), (0, 2)] : List (ℚ × ℚ)).getD j (0, 0)) ((10:ℚ), (0:ℚ))) :=
  ⟨by decide,
   c2_outside_hull_nearest_value (fun i => ([1, 3, 5] : List ℚ).getD i 0)
     (fun _ => (0, 1, 2)) (fun _ => (1, 0, 0)) [7]
     [((0:ℚ), (0:ℚ)), (2, 0), (0, 2)] (fun _ => ((10:ℚ), (0:ℚ))) 7 (by decide)⟩

/- ------------------------------------------------------------------ -/
/- BilinearInterp                                                      -/
/- ------------------------------------------------------------------ -/

/-- Clamp applied to the computed lower cell index along one axis
(lines 106-109 and 111-114 of `BilinearInterp`): an index at or past
`len(axis) - 1` is replaced by `len(axis) - 2`, a negative index by 0. -/
def bilinClamp (g : ℤ) (len : ℕ) : ℕ :=
  if (len : ℤ) - 1 ≤ g then len - 2 else if g < 0 then 0 else g.toNat

/-- Lower cell index along one axis (lines 105-114): floor of the offset from
the axis origin divided by the first grid spacing `ax[1] - ax[0]`, then
clamped.  The first spacing is used for every cell, exactly as in the source. -/
def bilinIndex (ax : List ℚ) (c : ℚ) : ℕ :=
  bilinClamp (Int.floor ((c - ax.getD 0 0) / (ax.getD 1 0 - ax.getD 0 0))) ax.length

/-- Four-corner weighted average computed by `BilinearInterp` for one
destination point (lines 103-119); `Value` is indexed as `Value[ygrid, xgrid]`
and the denominator is the product of the first spacings `dx * dy`. -/
def BilinearInterpPoint (x y : List ℚ) (Value : ℕ → ℕ → ℚ) (xc yc : ℚ) : ℚ :=
  let dx := x.getD 1 0 - x.getD 0 0
  let dy := y.getD 1 0 - y.getD 0 0
  let xg := bilinIndex x xc
  let yg := bilinIndex y yc
  Value yg xg * (x.getD (xg + 1) 0 - xc) * (y.getD (yg + 1) 0 - yc) / (dx * dy)
    + Value (yg + 1) xg * (x.getD (xg + 1) 0 - xc) * (yc - y.getD yg 0) / (dx * dy)
    + Value yg (xg + 1) * (xc - x.getD xg 0) * (y.getD (yg + 1) 0 - yc) / (dx * dy)
    + Value (yg + 1) (xg + 1) * (xc - x.getD xg 0) * (yc - y.getD yg 0) / (dx * dy)

lemma bilinClamp_bounds (g : ℤ) (len : ℕ) (h : 2 ≤ len) :
    bilinClamp g len ≤ len - 2 ∧ bilinClamp g len + 1 < len := by
  unfold bilinClamp
  split_ifs with h1 h2
  · omega
  · omega
  · omega

/-- C7: for every destination point and axes of length at least 2, the
clamped cell indices used by `BilinearInterp` lie in `[0, axis_length - 2]`,
so the four corner accesses at indices `xg, xg+1, yg, yg+1` are all in
bounds; out-of-domain points land on an edge cell. -/
theorem c7_bilinear_indices_in_bounds
    (x y : List ℚ) (xc yc : ℚ) (hx : 2 ≤ x.length) (hy : 2 ≤ y.length) :
    bilinIndex x xc ≤ x.length - 2 ∧ bilinIndex x xc + 1 < x.length ∧
    bilinIndex y yc ≤ y.length - 2 ∧ bilinIndex y yc + 1 < y.length := by
  have h1 := bilinClamp_bounds
    (Int.floor ((xc - x.getD 0 0) / (x.getD 1 0 - x.getD 0 0))) x.length hx
  have h2 := bilinClamp_bounds
    (Int.floor ((yc - y.getD 0 0) / (y.getD 1 0 - y.getD 0 0))) y.length hy
  exact ⟨h1.1, h1.2, h2.1, h2.2⟩

/-- Witness for C7: a destination point far outside the domain of the axes
`[0, 1, 3]` and `[0, 1]` still gets in-bounds (edge) cell indices. -/
theorem c7_bilinear_indices_in_bounds_witness :
    2 ≤ ([(0:ℚ), 1, 3] : List ℚ).length ∧ 2 ≤ ([(0:ℚ), 1] : List ℚ).length ∧
    (bilinIndex [(0:ℚ), 1, 3] 100 ≤ ([(0:ℚ), 1, 3] : List ℚ).length - 2 ∧
     bilinIndex [(0:ℚ), 1, 3] 100 + 1 < ([(0:ℚ), 1, 3] : List ℚ).length ∧
     bilinIndex [(0:ℚ), 1] (-50) ≤ ([(0:ℚ), 1] : List ℚ).length - 2 ∧
     bilinIndex [(0:ℚ), 1] (-50) + 1 < ([(0:ℚ), 1] : List ℚ).length) :=
  ⟨by norm_num, by norm_num,
   c7_bilinear_indices_in_bounds [(0:ℚ), 1, 3] [(0:ℚ), 1] 100 (-50)
     (by norm_num) (by norm_num)⟩

/-- C6 counterexample: the axes `[0, 1, 3]` and `[0, 1]` are strictly
monotonic, the destination point `(2, 1/2)` lies inside the structured
domain, and the source field samples the affine function `f(x, y) = x`; yet
`BilinearInterp` returns 4, not 2.  The code uses the first spacing
`x[1] - x[0]` both to locate the cell and as the weight denominator, so
exactness fails on non-uniformly spaced axes. -/
theorem c6_counterexample :
    List.Sorted (· < ·) [(0:ℚ), 1, 3] ∧ List.Sorted (· < ·) [(0:ℚ), 1] ∧
    ((0:ℚ) ≤ 2 ∧ (2:ℚ) ≤ 3 ∧ (0:ℚ) ≤ 1/2 ∧ (1/2:ℚ) ≤ 1) ∧
    BilinearInterpPoint [(0:ℚ), 1, 3] [(0:ℚ), 1]
      (fun j i => 1 * ([(0:ℚ), 1, 3].getD i 0) + 0 * ([(0:ℚ), 1].getD j 0) + 0)
      2 (1/2) = 4 ∧
    (4:ℚ) ≠ 1 * 2 + 0 * (1/2) + 0 := by
  refine ⟨by norm_num, by norm_num, by norm_num, ?_, by norm_num⟩
  norm_num [BilinearInterpPoint, bilinIndex, bilinClamp]

/-- C6 (amended): bilinear interpolation is exact for affine source fields on
uniformly spaced axes: if both axes have constant spacing equal to their
first spacing (nonzero), the sampled field is `a*x + b*y + c`, and the
destination point lies inside the structured domain, then `BilinearInterp`
reproduces the affine function exactly at that point. -/
theorem c6_bilinear_affine_exact_uniform
    (x y : List ℚ) (Value : ℕ → ℕ → ℚ) (a b c xc yc : ℚ)
    (hx2 : 2 ≤ x.length) (hy2 : 2 ≤ y.length)
    (hdx : x.getD 1 0 - x.getD 0 0 ≠ 0)
    (hdy : y.getD 1 0 - y.getD 0 0 ≠ 0)
    (hux : ∀ i < x.length - 1, x.getD (i + 1) 0 = x.getD i 0 + (x.getD 1 0 - x.getD 0 0))
    (huy : ∀ j < y.length - 1, y.getD (j + 1) 0 = y.getD j 0 + (y.getD 1 0 - y.getD 0 0))
    (hV : ∀ j < y.length, ∀ i < x.length, Value j i = a * x.getD i 0 + b * y.getD j 0 + c)
    (hinx : x.getD 0 0 ≤ xc ∧ xc ≤ x.getD (x.length - 1) 0)
    (hiny : y.getD 0 0 ≤ yc ∧ yc ≤ y.getD (y.length - 1) 0) :
    BilinearInterpPoint x y Value xc yc = a * xc + b * yc + c := by
  have hxb := bilinClamp_bounds
    (Int.floor ((xc - x.getD 0 0) / (x.getD 1 0 - x.getD 0 0))) x.length hx2
  have hyb := bilinClamp_bounds
    (Int.floor ((yc - y.getD 0 0) / (y.getD 1 0 - y.getD 0 0))) y.length hy2
  set xg := bilinIndex x xc with hxg
  set yg := bilinIndex y yc with hyg
  have hxg1 : xg + 1 < x.length := hxb.2
  have hyg1 : yg + 1 < y.length := hyb.2
  have hxstep : x.getD (xg + 1) 0 = x.getD xg 0 + (x.getD 1 0 - x.getD 0 0) :=
    hux xg (by omega)
  have hystep : y.getD (yg + 1) 0 = y.getD yg 0 + (y.getD 1 0 - y.getD 0 0) :=
    huy yg (by omega)
  have hV00 : Value yg xg = a * x.getD xg 0 + b * y.getD yg 0 + c :=
    hV yg (by omega) xg (by omega)
  have hV10 : Value (yg + 1) xg = a * x.getD xg 0 + b * y.getD (yg + 1) 0 + c :=
    hV (yg + 1) (by omega) xg (by omega)
  have hV01 : Value yg (xg + 1) = a * x.getD (xg + 1) 0 + b * y.getD yg 0 + c :=
    hV yg (by omega) (xg + 1) (by omega)
  have hV11 : Value (yg + 1) (xg + 1) = a * x.getD (xg + 1) 0 + b * y.getD (yg + 1) 0 + c :=
    hV (yg + 1) (by omega) (xg + 1) (by omega)
  show Value yg xg * (x.getD (xg + 1) 0 - xc) * (y.getD (yg + 1) 0 - yc) /
        ((x.getD 1 0 - x.getD 0 0) * (y.getD 1 0 - y.getD 0 0))
      + Value (yg + 1) xg * (x.getD (xg + 1) 0 - xc) * (yc - y.getD yg 0) /
        ((x.getD 1 0 - x.getD 0 0) * (y.getD 1 0 - y.getD 0 0))
      + Value yg (xg + 1) * (xc - x.getD xg 0) * (y.getD (yg + 1) 0 - yc) /
        ((x.getD 1 0 - x.getD 0 0) * (y.getD 1 0 - y.getD 0 0))
      + Value (yg + 1) (xg + 1) * (xc - x.getD xg 0) * (yc - y.getD yg 0) /
        ((x.getD 1 0 - x.getD 0 0) * (y.getD 1 0 - y.getD 0 0))
      = a * xc + b * yc + c
  rw [hV00, hV10, hV01, hV11, hxstep, hystep]
  rw [div_add_div_same, div_add_div_same, div_add_div_same,
    div_eq_iff (mul_ne_zero hdx hdy)]
  ring

/-- Witness for C6: the spec's end-to-end scenario — axes `x = [0,1,2,3]`,
`y = [0,1,2]`, field `f(x, y) = x + 2y`, destination point `(3/2, 1/2)`,
giving exactly `3/2 + 2·(1/2) = 5/2`. -/
theorem c6_bilinear_affine_exact_uniform_witness :
    2 ≤ ([(0:ℚ), 1, 2, 3] : List ℚ).length ∧ 2 ≤ ([(0:ℚ), 1, 2] : List ℚ).length ∧
    BilinearInterpPoint [(0:ℚ), 1, 2, 3] [(0:ℚ), 1, 2]
      (fun j i => 1 * ([(0:ℚ), 1, 2, 3].getD i 0) + 2 * ([(0:ℚ), 1, 2].getD j 0) + 0)
      (3/2) (1/2) = 1 * (3/2) + 2 * (1/2) + 0 ∧
    (1 * (3/2 : ℚ) + 2 * (1/2 : ℚ) + 0 = 5/2) :=
  ⟨by norm_num, by norm_num,
   c6_bilinear_affine_exact_uniform [(0:ℚ), 1, 2, 3] [(0:ℚ), 1, 2]
     (fun j i => 1 * ([(0:ℚ), 1, 2, 3].getD i 0) + 2 * ([(0:ℚ), 1, 2].getD j 0) + 0)
     1 2 0 (3/2) (1/2) (by norm_num) (by norm_num) (by norm_num) (by norm_num)
     (by intro i hi; simp only [List.length_cons, List.length_nil] at hi;
         interval_cases i <;> norm_num)
     (by intro j hj; simp only [List.length_cons, List.length_nil] at hj;
         interval_cases j <;> norm_num)
     (by intro j hj i hi; simp only [List.length_cons, List.length_nil] at hj hi;
         interval_cases j <;> interval_cases i <;> norm_num)
     (by norm_num) (by norm_num),
   by norm_num⟩

/- ------------------------------------------------------------------ -/
/- Vertical nudge before re-layering (interpolate_field_with_layers)   -/
/- ------------------------------------------------------------------ -/

/-- Minimum of a numpy array as used by `input_layers.min()`; the arrays in
the program are nonempty, and the empty list is mapped to 0. -/
def arrMin : List ℚ → ℚ
  | [] => 0
  | q :: qs => qs.foldl min q

/-- Maximum of a numpy array as used by `input_layers.max()`. -/
def arrMax : List ℚ → ℚ
  | [] => 0
  | q :: qs => qs.foldl max q

/-- Boundary nudge applied to `input_layers` before vertical interpolation
(lines 355-373 of `interpolate_field_with_layers`).  Returns the adjusted
layers plus two flags: warning printed at the minimum side, warning printed
at the maximum side.  The min side compares `input_layers.min() - 1e-6` with
`destVertCoord.min()` and shifts `input_layers[0]` down; the max side's inner
test at line 366 compares `input_layers.max() + 1e-6` against
`destVertCoord.min()` — exactly as the source does — and shifts the last
entry up. -/
def vertical_nudge (layers dest : List ℚ) : List ℚ × Bool × Bool :=
  let tol : ℚ := 1 / 1000000
  let l1 := if arrMin dest < arrMin layers then
              (if arrMin layers - tol < arrMin dest then
                layers.set 0 (layers.getD 0 0 - tol) else layers)
            else layers
  let warnMin := decide (arrMin dest < arrMin layers ∧ ¬(arrMin layers - tol < arrMin dest))
  let l2 := if arrMax l1 < arrMax dest then
              (if arrMin dest < arrMax l1 + tol then
                l1.set (l1.length - 1) (l1.getD (l1.length - 1) 0 + tol) else l1)
            else l1
  let warnMax := decide (arrMax l1 < arrMax dest ∧ ¬(arrMin dest < arrMax l1 + tol))
  (l2, warnMin, warnMax)

/-- C3 (code bug): with `input_layers = [0, 3/10]` and
`destVertCoord = [0, 1]` the gap `1 - 3/10 = 7/10` far exceeds the tolerance
`1e-6`, so per the claim the max side should warn and leave the layers alone;
instead the source's inner test (line 366) compares against
`destVertCoord.min()` and therefore silently shifts the source maximum up by
the tolerance and prints no warning. -/
theorem c3_max_nudge_tests_destination_minimum :
    vertical_nudge [0, 3/10] [0, 1] = ([0, 300001/1000000], false, false) ∧
    (1 : ℚ) - 3/10 > 1/1000000 := by
  constructor
  · norm_num [vertical_nudge, arrMin, arrMax]
  · norm_num

/- ------------------------------------------------------------------ -/
/- Strategy dispatch in interpolate_field                              -/
/- ------------------------------------------------------------------ -/

/-- Grid types declared in `fieldInfo` (the `gridType` entries). -/
inductive GridType where
  | x0
  | x1
  | cell
  deriving DecidableEq

/-- Result of the strategy dispatch of `interpolate_field` (lines 209-247). -/
inductive DispatchResult where
  | bilinear
  | barycentric
  | nearestNeighbor
  | esmf
  | fatalUnknownMethod
  deriving DecidableEq

/-- Strategy selection of `interpolate_field` (lines 211-247) as a function
of the requested one-letter method tag and the field's grid type.  Lines
211-212 execute `assert "This CISM field is on the staggered grid, ..."`
for the combination `gridType == 'x0'` and method `'e'`; in Python an assert
of a non-empty string literal always passes, so that combination raises no
error and falls through to the method branches.  Only an unrecognized tag
reaches `sys.exit` (line 247). -/
def interpolate_field_dispatch (interpType : Char) (gridType : GridType) : DispatchResult :=
  if interpType = 'b' then .bilinear
  else if interpType = 'd' then .barycentric
  else if interpType = 'n' then .nearestNeighbor
  else if interpType = 'e' then .esmf
  else .fatalUnknownMethod

/-- C4 (code bug): an unrecognized method tag is a fatal error, but the
ESMF method requested for a field on the staggered `x0` grid is NOT surfaced
as an error — the dispatch proceeds to the ESMF strategy because the
`assert` of a non-empty string at line 212 never fails. -/
theorem c4_staggered_esmf_not_rejected :
    interpolate_field_dispatch 'e' GridType.x0 = DispatchResult.esmf ∧
    interpolate_field_dispatch 'e' GridType.x0 ≠ DispatchResult.fatalUnknownMethod ∧
    interpolate_field_dispatch 'z' GridType.x0 = DispatchResult.fatalUnknownMethod := by
  refine ⟨rfl, by decide, rfl⟩

/- ------------------------------------------------------------------ -/
/- ESMF sparse-weight application                                      -/
/- ------------------------------------------------------------------ -/

/-- `ESMF_interp` loop (lines 77-85) with numpy's bounds behavior and the
surrounding `try/except`: each triple `(s, r, c)` adds `s * sourceFlat[c]`
into `destination[r-1]`; an index outside either array raises, and the bare
`except` at lines 83-84 catches it — its body is the bare string expression
`'error in ESMF_interp'`, which prints nothing — after which the partially
accumulated buffer is returned.  The Boolean records whether an exception
was swallowed that way. -/
def ESMF_interp_go (srcFlat : List ℚ) : List ℚ → List (ℚ × ℕ × ℕ) → List ℚ × Bool
  | dest, [] => (dest, false)
  | dest, (s, r, c) :: rest =>
      if 1 ≤ r ∧ r - 1 < dest.length ∧ c < srcFlat.length then
        ESMF_interp_go srcFlat
          (dest.set (r - 1) (dest.getD (r - 1) 0 + s * srcFlat.getD c 0)) rest
      else (dest, true)

/-- `ESMF_interp` (lines 75-85): destination buffer of `nCells` zeros, then
the accumulation loop over the aligned weight-file triples `(S, row, col)`. -/
def ESMF_interp (S : List ℚ) (row col : List ℕ) (sourceFlat : List ℚ) (nCells : ℕ) :
    List ℚ × Bool :=
  ESMF_interp_go sourceFlat (List.replicate nCells 0) (S.zip (row.zip col))

/-- C5 (code bug): with weights `S = [1, 1]`, `row = [1, 2]`, `col = [0, 5]`
and a source field of length 2, the second triple's column index 5 is out of
range: the loop raises after accumulating only the first triple, the bare
`except` swallows the error without printing anything, and the partially
accumulated buffer `[10, 0]` is returned (and then persisted by the main
loop at lines 708-714).  A successful run of the same weights with in-range
columns returns the full result `[10, 20]` with no exception. -/
theorem c5_esmf_swallows_and_returns_partial :
    ESMF_interp [1, 1] [1, 2] [0, 5] [10, 20] 2 = ([10, 0], true) ∧
    ESMF_interp [1, 1] [1, 2] [0, 1] [10, 20] 2 = ([10, 20], false) := by
  constructor
  · norm_num [ESMF_interp, ESMF_interp_go, List.replicate]
  · norm_num [ESMF_interp, ESMF_interp_go, List.replicate]

/-- Accumulation statement of `ESMF_interp` (lines 79-82) over unbounded
index spaces, for algebraic reasoning: the destination starts at zero and
every triple `(s, r, c)` adds `s * source[c]` into `destination[r-1]`;
repeated destination rows accumulate rather than overwrite. -/
def ESMF_accum (src : ℕ → ℚ) : List (ℚ × ℕ × ℕ) → (ℕ → ℚ) → (ℕ → ℚ)
  | [], dest => dest
  | (s, r, c) :: rest, dest =>
      ESMF_accum src rest (Function.update dest (r - 1) (dest (r - 1) + s * src c))

/-- Sparse-matrix application on a source field given as a total index
function: zero-initialized buffer, then the accumulation loop. -/
def ESMF_interp_total (S : List ℚ) (row col : List ℕ) (src : ℕ → ℚ) : ℕ → ℚ :=
  ESMF_accum src (S.zip (row.zip col)) (fun _ => 0)

lemma ESMF_accum_linear (a b : ℚ) (f g : ℕ → ℚ) :
    ∀ (t : List (ℚ × ℕ × ℕ)) (d1 d2 : ℕ → ℚ) (n : ℕ),
      ESMF_accum (fun j => a * f j + b * g j) t (fun j => a * d1 j + b * d2 j) n
        = a * ESMF_accum f t d1 n + b * ESMF_accum g t d2 n := by
  intro t
  induction t with
  | nil => intro d1 d2 n; simp [ESMF_accum]
  | cons hd rest ih =>
    obtain ⟨s, r, c⟩ := hd
    intro d1 d2 n
    simp only [ESMF_accum]
    have hupd : Function.update (fun j => a * d1 j + b * d2 j) (r - 1)
        ((fun j => a * d1 j + b * d2 j) (r - 1) + s * ((fun j => a * f j + b * g j) c))
        = fun j => a * Function.update d1 (r - 1) (d1 (r - 1) + s * f c) j
            + b * Function.update d2 (r - 1) (d2 (r - 1) + s * g c) j := by
      funext j
      by_cases hj : j = r - 1
      · subst hj; simp [Function.update]; ring
      · simp [Function.update, hj]
    rw [hupd]
    exact ih _ _ n

/-- C8: sparse-weight-matrix application is linear in the source field: for
every triple sequence and scalars `a`, `b`, applying the accumulation to
`a*f + b*g` equals `a` times the application to `f` plus `b` times the
application to `g`, at every destination index — a consequence of each
destination entry being accumulated into a zero-initialized buffer. -/
theorem c8_sparse_apply_linear
    (S : List ℚ) (row col : List ℕ) (a b : ℚ) (f g : ℕ → ℚ) (n : ℕ) :
    ESMF_interp_total S row col (fun j => a * f j + b * g j) n
      = a * ESMF_interp_total S row col f n + b * ESMF_interp_total S row col g n := by
  unfold ESMF_interp_total
  have key := ESMF_accum_linear a b f g (S.zip (row.zip col))
    (fun _ => 0) (fun _ => 0) n
  have hz : (fun j : ℕ => a * (fun _ : ℕ => (0:ℚ)) j + b * (fun _ : ℕ => (0:ℚ)) j)
      = (fun _ : ℕ => (0:ℚ)) := by funext j; simp
  rw [hz] at key
  exact key

/- ------------------------------------------------------------------ -/
/- Vertical re-layering: vertical_interp_MPAS_grid and numpy.interp    -/
/- ------------------------------------------------------------------ -/

/-- Segment scan underlying `numpy.interp` for one query point `x` over
parallel data lists `(xp, fp)`: numpy's binary search locates the last node
at or below `x`, which for a (not necessarily strictly) non-decreasing `xp`
this left-to-right scan reproduces — advance while `x` is at or beyond the
right node of the current segment, interpolate linearly inside the found
segment, and return the last data value for queries at or beyond the last
node.  Models `np.interp` as called at line 387. -/
def interpCol (x : ℚ) : List ℚ → List ℚ → ℚ
  | x1 :: xtl, f1 :: ftl =>
      match xtl, ftl with
      | x2 :: _, f2 :: _ =>
          if x < x2 then f1 + (f2 - f1) * (x - x1) / (x2 - x1)
          else interpCol x xtl ftl
      | _, _ => f1
  | _, _ => 0

/-- `numpy.interp(x, xp, fp)`: the data value of the first node for queries
below it (flat extrapolation), otherwise the segment scan (which yields the
last data value at or beyond the last node). -/
def npinterp (x : ℚ) (xp fp : List ℚ) : ℚ :=
  match xp, fp with
  | x1 :: xt, f1 :: ft => if x < x1 then f1 else interpCol x (x1 :: xt) (f1 :: ft)
  | _, _ => 0

/-- Column re-layering of `vertical_interp_MPAS_grid` (lines 384-388) for one
horizontal cell: `np.interp` of the column at every destination coordinate. -/
def vertical_interp_column (destVertCoord input_layers col : List ℚ) : List ℚ :=
  destVertCoord.map (fun z => npinterp z input_layers col)

/-- `vertical_interp_MPAS_grid` (lines 384-388): one re-layered column per
destination cell, `cols i` being `mpas_grid_input_layers[:, i]`. -/
def vertical_interp_MPAS_grid (nCells : ℕ) (destVertCoord input_layers : List ℚ)
    (cols : ℕ → List ℚ) : List (List ℚ) :=
  (List.range nCells).map (fun i => vertical_interp_column destVertCoord input_layers (cols i))

lemma interpCol_self :
    ∀ (xp fp : List ℚ), List.Sorted (· < ·) xp → fp.length = xp.length →
      ∀ (k : ℕ) (h1 : k < xp.length) (h2 : k < fp.length),
        interpCol (xp.get ⟨k, h1⟩) xp fp = fp.get ⟨k, h2⟩ := by
  intro xp
  induction xp with
  | nil => intro fp _ _ k h1 _; exact absurd h1 (by simp)
  | cons x1 xt ih =>
    intro fp hs hlen k h1 h2
    cases fp with
    | nil => exact absurd h2 (by simp)
    | cons f1 ft =>
      cases xt with
      | nil =>
        have hk : k = 0 := by
          simp only [List.length_cons, List.length_nil] at h1
          omega
        subst hk
        simp [interpCol]
      | cons x2 xt2 =>
        cases ft with
        | nil =>
          exfalso
          simp only [List.length_cons, List.length_nil] at hlen
          omega
        | cons f2 ft2 =>
          have htail : List.Sorted (· < ·) (x2 :: xt2) := (List.sorted_cons.mp hs).2
          cases k with
          | zero =>
            have h12 : x1 < x2 := (List.sorted_cons.mp hs).1 x2 (by simp)
            show interpCol x1 (x1 :: x2 :: xt2) (f1 :: f2 :: ft2) = f1
            simp only [interpCol]
            rw [if_pos h12]
            simp
          | succ k2 =>
            have hk1 : k2 < (x2 :: xt2).length := by
              simp only [List.length_cons] at h1 ⊢; omega
            have hk2 : k2 < (f2 :: ft2).length := by
              simp only [List.length_cons] at h2 ⊢; omega
            have hget : (x1 :: x2 :: xt2).get ⟨k2 + 1, h1⟩ = (x2 :: xt2).get ⟨k2, hk1⟩ := rfl
            have hgetf : (f1 :: f2 :: ft2).get ⟨k2 + 1, h2⟩ = (f2 :: ft2).get ⟨k2, hk2⟩ := rfl
            have hx2le : x2 ≤ (x2 :: xt2).get ⟨k2, hk1⟩ := by
              cases k2 with
              | zero => exact le_refl _
              | succ m =>
                have hm : m < xt2.length := by
                  simp only [List.length_cons] at hk1; omega
                have : (x2 :: xt2).get ⟨m + 1, hk1⟩ = xt2.get ⟨m, hm⟩ := rfl
                rw [this]
                exact le_of_lt ((List.sorted_cons.mp htail).1 _ (xt2.get_mem m hm))
            rw [hget, hgetf]
            show interpCol ((x2 :: xt2).get ⟨k2, hk1⟩) (x1 :: x2 :: xt2) (f1 :: f2 :: ft2)
              = (f2 :: ft2).get ⟨k2, hk2⟩
            simp only [interpCol]
            rw [if_neg (not_lt.mpr hx2le)]
            exact ih (f2 :: ft2) htail (by simp only [List.length_cons] at hlen ⊢; omega)
              k2 hk1 hk2

lemma npinterp_self (xp fp : List ℚ) (hs : List.Sorted (· < ·) xp)
    (hlen : fp.length = xp.length) (k : ℕ) (h1 : k < xp.length) (h2 : k < fp.length) :
    npinterp (xp.get ⟨k, h1⟩) xp fp = fp.get ⟨k, h2⟩ := by
  cases xp with
  | nil => exact absurd h1 (by simp)
  | cons x1 xt =>
    cases fp with
    | nil => exact absurd h2 (by simp)
    | cons f1 ft =>
      have hle : x1 ≤ (x1 :: xt).get ⟨k, h1⟩ := by
        cases k with
        | zero => exact le_refl _
        | succ m =>
          have hm : m < xt.length := by
            simp only [List.length_cons] at h1; omega
          have : (x1 :: xt).get ⟨m + 1, h1⟩ = xt.get ⟨m, hm⟩ := rfl
          rw [this]
          exact le_of_lt ((List.sorted_cons.mp hs).1 _ (xt.get_mem m hm))
      simp only [npinterp]
      rw [if_neg (not_lt.mpr hle)]
      exact interpCol_self (x1 :: xt) (f1 :: ft) hs hlen k h1 h2

/-- C9 counterexample: the coordinate sequence `[0, 0, 1]` is non-decreasing,
yet re-layering the column `[5, 7, 9]` onto its own coordinates yields
`[7, 7, 9]`, not the original column: at the duplicated node 0, numpy's
search finds the last node at or below the query, so the value 7 attached to
the second copy of 0 replaces the original first entry 5. -/
theorem c9_counterexample :
    List.Sorted (· ≤ ·) [(0:ℚ), 0, 1] ∧
    vertical_interp_column [(0:ℚ), 0, 1] [(0:ℚ), 0, 1] [5, 7, 9] ≠ [(5:ℚ), 7, 9] := by
  constructor
  · norm_num
  · norm_num [vertical_interp_column, npinterp, interpCol]

/-- C9 (amended): vertical re-layering is idempotent under identical
coordinate sequences provided the source vertical coordinates are strictly
increasing: re-layering a column onto its own source coordinates reproduces
the original column exactly. -/
theorem c9_vertical_relayer_idempotent_strict
    (input_layers col : List ℚ)
    (hs : List.Sorted (· < ·) input_layers)
    (hlen : col.length = input_layers.length) :
    vertical_interp_column input_layers input_layers col = col := by
  apply List.ext_get
  · simp [vertical_interp_column, hlen]
  · intro k h1 h2
    have hk : k < input_layers.length := by
      simpa [vertical_interp_column] using h1
    have hk2 : k < col.length := by omega
    simp only [vertical_interp_column, List.get_map]
    exact npinterp_self input_layers col hs hlen k hk hk2

/-- Witness for C9: a strictly increasing coordinate list reproduces its
column exactly. -/
theorem c9_vertical_relayer_idempotent_strict_witness :
    List.Sorted (· < ·) [(0:ℚ), 1/2, 1] ∧
    ([(3:ℚ), 4, 5] : List ℚ).length = ([(0:ℚ), 1/2, 1] : List ℚ).length ∧
    vertical_interp_column [(0:ℚ), 1/2, 1] [(0:ℚ), 1/2, 1] [3, 4, 5] = [(3:ℚ), 4, 5] :=
  ⟨by norm_num, by norm_num,
   c9_vertical_relayer_idempotent_strict [(0:ℚ), 1/2, 1] [(3:ℚ), 4, 5]
     (by norm_num) (by norm_num)⟩

/- ------------------------------------------------------------------ -/
/- Layer-interfaces setup block (lines 426-436)                        -/
/- ------------------------------------------------------------------ -/

lemma getD_set_ne (l : List ℚ) (i j : ℕ) (v : ℚ) (h : i ≠ j) :
    (l.set i v).getD j 0 = l.getD j 0 := by
  simp [List.getD_eq_getElem?_getD, List.getElem?_set_ne h]

lemma getD_set_self (l : List ℚ) (i : ℕ) (v : ℚ) (h : i < l.length) :
    (l.set i v).getD i 0 = v := by
  simp [List.getD_eq_getElem?_getD, List.getElem?_set_self h]

/-- Loop of the layer-interfaces setup block (lines 432-433): for each `k`
the source executes
`mpasLayerCenters[k] = mpasLayerCenters[k-1] + layerThicknessFractions[k]` —
writing into the layer-CENTERS array.  An index at or past the end of either
array raises IndexError, which the surrounding `except` catches (printing
only the non-fatal 'Trouble calculating mpas layer interfaces' message); the
Boolean records whether the loop was aborted that way. -/
def interfacesLoop (fracs : List ℚ) : List ℚ → List ℕ → List ℚ × Bool
  | centers, [] => (centers, false)
  | centers, k :: ks =>
      if k < centers.length ∧ k < fracs.length then
        interfacesLoop fracs (centers.set k (centers.getD (k - 1) 0 + fracs.getD k 0)) ks
      else (centers, true)

/-- Layer-interfaces setup (lines 426-436): `mpasLayerInterfaces` is
allocated as `np.zeros((nVertInterfaces,))` and only its entry 0 is ever
assigned (to 0.0, line 431); the loop over `k in range(1, nVertInterfaces)`
mutates `mpasLayerCenters` instead.  Returns (final centers, interfaces,
exception-swallowed flag). -/
def mpasLayerInterfacesSetup (nVertInterfaces : ℕ) (fracs centers : List ℚ) :
    List ℚ × List ℚ × Bool :=
  let interfaces := (List.replicate nVertInterfaces (0:ℚ)).set 0 0
  let r := interfacesLoop fracs centers (List.range' 1 (nVertInterfaces - 1))
  (r.1, interfaces, r.2)

lemma interfacesLoop_append (fracs : List ℚ) :
    ∀ (ks1 ks2 : List ℕ) (centers : List ℚ),
      interfacesLoop fracs centers (ks1 ++ ks2)
        = (if (interfacesLoop fracs centers ks1).2 then interfacesLoop fracs centers ks1
           else interfacesLoop fracs (interfacesLoop fracs centers ks1).1 ks2) := by
  intro ks1
  induction ks1 with
  | nil => intro ks2 centers; simp [interfacesLoop]
  | cons k ks ih =>
    intro ks2 centers
    by_cases h : k < centers.length ∧ k < fracs.length
    · simp only [List.cons_append, interfacesLoop, if_pos h]
      exact ih ks2 _
    · simp only [List.cons_append, interfacesLoop, if_neg h]
      simp

lemma interfacesLoop_ok (fracs : List ℚ) :
    ∀ (ks : List ℕ) (centers : List ℚ),
      (∀ k ∈ ks, k < centers.length ∧ k < fracs.length) →
      (interfacesLoop fracs centers ks).2 = false ∧
      (interfacesLoop fracs centers ks).1.length = centers.length := by
  intro ks
  induction ks with
  | nil => intro centers _; simp [interfacesLoop]
  | cons k ks ih =>
    intro centers hb
    have hk := hb k (by simp)
    simp only [interfacesLoop, if_pos hk]
    have hb2 : ∀ j ∈ ks,
        j < (centers.set k (centers.getD (k - 1) 0 + fracs.getD k 0)).length ∧
        j < fracs.length := by
      intro j hj
      have := hb j (by simp [hj])
      simpa [List.length_set] using this
    have := ih _ hb2
    simpa [List.length_set] using this

lemma interfacesLoop_getD_stable (fracs : List ℚ) :
    ∀ (ks : List ℕ) (centers : List ℚ) (j : ℕ),
      (∀ k ∈ ks, j ≠ k) →
      ((interfacesLoop fracs centers ks).1).getD j 0 = centers.getD j 0 := by
  intro ks
  induction ks with
  | nil => intro centers j _; simp [interfacesLoop]
  | cons k ks ih =>
    intro centers j hj
    by_cases h : k < centers.length ∧ k < fracs.length
    · simp only [interfacesLoop, if_pos h]
      rw [ih _ j (fun k2 hk2 => hj k2 (by simp [hk2]))]
      exact getD_set_ne _ _ _ _ (fun hkj => hj k (by simp) hkj.symm)
    · simp only [interfacesLoop, if_neg h]

lemma interfacesLoop_recurrence (fracs : List ℚ) :
    ∀ (ks : List ℕ) (centers : List ℚ),
      List.Pairwise (· < ·) ks →
      (∀ k ∈ ks, 1 ≤ k ∧ k < centers.length ∧ k < fracs.length) →
      ∀ k ∈ ks,
        ((interfacesLoop fracs centers ks).1).getD k 0
          = ((interfacesLoop fracs centers ks).1).getD (k - 1) 0 + fracs.getD k 0 := by
  intro ks
  induction ks with
  | nil => intro centers _ _ k hk; exact absurd hk (by simp)
  | cons k0 ks ih =>
    intro centers hp hb k hk
    have hk0 := hb k0 (by simp)
    have hcond : k0 < centers.length ∧ k0 < fracs.length := ⟨hk0.2.1, hk0.2.2⟩
    simp only [interfacesLoop]
    rw [if_pos hcond]
    rcases List.mem_cons.mp hk with rfl | hmem
    · have hne : ∀ k2 ∈ ks, k ≠ k2 :=
        fun k2 h2 => Nat.ne_of_lt ((List.pairwise_cons.mp hp).1 k2 h2)
      have hne2 : ∀ k2 ∈ ks, k - 1 ≠ k2 := by
        intro k2 h2
        have := (List.pairwise_cons.mp hp).1 k2 h2
        omega
      rw [interfacesLoop_getD_stable fracs ks _ k hne,
        interfacesLoop_getD_stable fracs ks _ (k - 1) hne2,
        getD_set_self _ _ _ hk0.2.1,
        getD_set_ne _ _ _ _ (by omega : k ≠ k - 1)]
    · exact ih _ (List.pairwise_cons.mp hp).2
        (fun k2 h2 => by
          have := hb k2 (by simp [h2])
          simpa [List.length_set] using this)
        k hmem

/-- C10: whenever the destination file provides `layerThicknessFractions`
(of length `nVertLevels = n`) and `nVertInterfaces = n + 1`, the setup block
aborts via its exception handler (the loop's final iteration indexes past
the end of `layerThicknessFractions` and `mpasLayerCenters`), leaves
`mpasLayerInterfaces` identically zero, keeps `mpasLayerCenters[0]`, and
overwrites entries `1 .. n-1` of `mpasLayerCenters` with interface-style
cumulative sums `centers[k] = centers[k-1] + fracs[k]`. -/
theorem c10_layer_interfaces_setup (n : ℕ) (fracs centers : List ℚ)
    (hn : 1 ≤ n) (hf : fracs.length = n) (hc : centers.length = n) :
    (mpasLayerInterfacesSetup (n + 1) fracs centers).2.2 = true ∧
    (mpasLayerInterfacesSetup (n + 1) fracs centers).2.1 = List.replicate (n + 1) (0:ℚ) ∧
    ((mpasLayerInterfacesSetup (n + 1) fracs centers).1).getD 0 0 = centers.getD 0 0 ∧
    ∀ k, 1 ≤ k → k ≤ n - 1 →
      ((mpasLayerInterfacesSetup (n + 1) fracs centers).1).getD k 0
        = ((mpasLayerInterfacesSetup (n + 1) fracs centers).1).getD (k - 1) 0
          + fracs.getD k 0 := by
  have hrange : List.range' 1 ((n + 1) - 1) = List.range' 1 (n - 1) ++ [n] := by
    have h1 : (n + 1) - 1 = (n - 1) + 1 := by omega
    rw [h1, List.range'_1_concat]
    have h2 : 1 + (n - 1) = n := by omega
    rw [h2]
  have hbounds : ∀ k ∈ List.range' 1 (n - 1),
      1 ≤ k ∧ k < centers.length ∧ k < fracs.length := by
    intro k hk
    rw [List.mem_range'_1] at hk
    omega
  have hok := interfacesLoop_ok fracs (List.range' 1 (n - 1)) centers
    (fun k hk => ⟨(hbounds k hk).2.1, (hbounds k hk).2.2⟩)
  have hfull : interfacesLoop fracs centers (List.range' 1 ((n + 1) - 1))
      = ((interfacesLoop fracs centers (List.range' 1 (n - 1))).1, true) := by
    rw [hrange, interfacesLoop_append fracs, hok.1]
    simp only [Bool.false_eq_true, if_false]
    simp only [interfacesLoop]
    rw [if_neg]
    intro hcon
    rw [hok.2, hc] at hcon
    omega
  refine ⟨?_, ?_, ?_, ?_⟩
  · simp only [mpasLayerInterfacesSetup]
    rw [hfull]
  · simp only [mpasLayerInterfacesSetup, List.replicate_succ, List.set_cons_zero]
  · simp only [mpasLayerInterfacesSetup]
    rw [hfull]
    exact interfacesLoop_getD_stable fracs _ centers 0
      (fun k hk => by rw [List.mem_range'_1] at hk; omega)
  · intro k h1k h2k
    simp only [mpasLayerInterfacesSetup]
    rw [hfull]
    have hmem : k ∈ List.range' 1 (n - 1) := by rw [List.mem_range'_1]; omega
    exact interfacesLoop_recurrence fracs (List.range' 1 (n - 1)) centers
      (List.pairwise_lt_range' 1 (n - 1)) hbounds k hmem

/-- Witness for C10: `nVertLevels = 2`, fractions `[1/3, 2/3]`, previously
computed centers `[1/4, 3/4]`: the setup swallows an exception, the
interfaces stay `[0, 0, 0]`, `centers[0]` keeps its value and `centers[1]`
becomes `centers[0] + fracs[1]`. -/
theorem c10_layer_interfaces_setup_witness :
    1 ≤ 2 ∧ ([(1:ℚ)/3, 2/3] : List ℚ).length = 2 ∧ ([(1:ℚ)/4, 3/4] : List ℚ).length = 2 ∧
    ((mpasLayerInterfacesSetup (2 + 1) [(1:ℚ)/3, 2/3] [(1:ℚ)/4, 3/4]).2.2 = true ∧
     (mpasLayerInterfacesSetup (2 + 1) [(1:ℚ)/3, 2/3] [(1:ℚ)/4, 3/4]).2.1
        = List.replicate (2 + 1) (0:ℚ) ∧
     ((mpasLayerInterfacesSetup (2 + 1) [(1:ℚ)/3, 2/3] [(1:ℚ)/4, 3/4]).1).getD 0 0
        = ([(1:ℚ)/4, 3/4] : List ℚ).getD 0 0 ∧
     ∀ k, 1 ≤ k → k ≤ 2 - 1 →
       ((mpasLayerInterfacesSetup (2 + 1) [(1:ℚ)/3, 2/3] [(1:ℚ)/4, 3/4]).1).getD k 0
         = ((mpasLayerInterfacesSetup (2 + 1) [(1:ℚ)/3, 2/3] [(1:ℚ)/4, 3/4]).1).getD (k - 1) 0
           + ([(1:ℚ)/3, 2/3] : List ℚ).getD k 0) :=
  ⟨by norm_num, by norm_num, by norm_num,
   c10_layer_interfaces_setup 2 [(1:ℚ)/3, 2/3] [(1:ℚ)/4, 3/4]
     (by norm_num) (by norm_num) (by norm_num)⟩

end InterpMpasli
